import Mathlib

/-!
Verification development for `prepare_data.py` (D-Fire dataset integrity
checker).  The Python source is shallowly embedded: the filesystem is a value
(`FS`), the statistics dictionary is a structure (`Stats`), and each Python
function becomes a Lean function of the same name.  Python `float` values that
the program parses from decimal literals are modelled exactly as rationals
(the program only compares them with 0 and 1); the textual content of an
exception interpolated into an error message is abstracted to a fixed marker.
-/

/-- ASCII lower-casing of one character, as Windows `os.path.normcase`
applies during case-insensitive `glob`/`fnmatch` matching. -/
def lowerChar (c : Char) : Char :=
  if 'A' ≤ c ∧ c ≤ 'Z' then Char.ofNat (c.toNat + 32) else c

/-- ASCII lower-casing of a character list. -/
def lowerStr (s : List Char) : List Char := s.map lowerChar

/-- ASCII upper-casing of one character, for Python `str.upper()`. -/
def upperChar (c : Char) : Char :=
  if 'a' ≤ c ∧ c ≤ 'z' then Char.ofNat (c.toNat - 32) else c

/-- Python `str.upper()` restricted to ASCII. -/
def upperStr (s : String) : String := String.mk (s.data.map upperChar)

/-- The ASCII whitespace characters recognised by Python `str.split()`
(space, tab, newline, carriage return, vertical tab, form feed). -/
def isWS (c : Char) : Bool :=
  c = ' ' || c = '\t' || c = '\n' || c = '\r' ||
  c = Char.ofNat 11 || c = Char.ofNat 12

/-- Helper for `splitWS`: `acc` holds the current word, reversed. -/
def splitWSAux : List Char → List Char → List (List Char)
  | [], acc => if acc.isEmpty then [] else [acc.reverse]
  | c :: cs, acc =>
    if isWS c then
      if acc.isEmpty then splitWSAux cs [] else acc.reverse :: splitWSAux cs []
    else splitWSAux cs (c :: acc)

/-- Python `line.strip().split()`: split on runs of whitespace, dropping
leading/trailing whitespace and empty words. -/
def splitWS (cs : List Char) : List (List Char) := splitWSAux cs []

/-- Text-mode universal newlines: `open(path, 'r')` translates `\r\n` and
lone `\r` to `\n` before `readlines` splits. -/
def normalizeNewlines : List Char → List Char
  | [] => []
  | '\r' :: '\n' :: cs => '\n' :: normalizeNewlines cs
  | '\r' :: cs => '\n' :: normalizeNewlines cs
  | c :: cs => c :: normalizeNewlines cs

/-- Helper for `splitLines`: `acc` holds the current line, reversed. -/
def splitLinesAux : List Char → List Char → List (List Char)
  | [], acc => if acc.isEmpty then [] else [acc.reverse]
  | c :: cs, acc =>
    if c = '\n' then acc.reverse :: splitLinesAux cs []
    else splitLinesAux cs (c :: acc)

/-- The lines of `f.readlines()`, without their terminating newline (the
terminator is whitespace, so dropping it is invisible to `strip().split()`).
`""` gives `[]` lines; `"\n"` gives one (blank) line, exactly as `readlines`
does. -/
def splitLines (cs : List Char) : List (List Char) := splitLinesAux cs []

/-- Numeric value of an ASCII digit. -/
def digitVal (c : Char) : Nat := c.toNat - 48

/-- Is `c` an ASCII digit? -/
def isDigitB (c : Char) : Bool := '0' ≤ c && c ≤ '9'

/-- Decimal value of a digit string. -/
def digitsToNat (cs : List Char) : Nat :=
  cs.foldl (fun n c => 10 * n + digitVal c) 0

/-- A non-empty all-digit string parses to its decimal value. -/
def parseDigits (cs : List Char) : Option Nat :=
  if cs.isEmpty then none
  else if cs.all isDigitB then some (digitsToNat cs) else none

/-- Python `int(token)` on a plain decimal token: optional sign followed by
digits.  (Surrounding whitespace never occurs in a `split()` token;
underscore separators and non-ASCII digits are outside the model.) -/
def parseInt : List Char → Option Int
  | '-' :: cs => (parseDigits cs).map (fun n => -(n : Int))
  | '+' :: cs => (parseDigits cs).map (fun n => (n : Int))
  | cs => (parseDigits cs).map (fun n => (n : Int))

/-- Split a character list at the first character satisfying `p`; `none`
when no character does. -/
def splitAtChar (p : Char → Bool) : List Char → List Char × Option (List Char)
  | [] => ([], none)
  | c :: cs =>
    if p c then ([], some cs)
    else
      let r := splitAtChar p cs
      (c :: r.1, r.2)

/-- The mantissa grammar of Python `float`: `digits`, `digits.`, `.digits`
or `digits.digits`.  Returns the digit string read as an integer together
with the number of fractional digits, so the value is `n / 10 ^ k`. -/
def parseMantissa (cs : List Char) : Option (Nat × Nat) :=
  match splitAtChar (fun c => c = '.') cs with
  | (ip, none) => (parseDigits ip).map (fun n => (n, 0))
  | (ip, some fp) =>
    if ip.isEmpty && fp.isEmpty then none
    else if ip.all isDigitB && fp.all isDigitB then
      some (digitsToNat ip * 10 ^ fp.length + digitsToNat fp, fp.length)
    else none

/-- Mantissa with optional exponent part (`e`/`E` then a signed integer):
the exact rational value `n / 10 ^ k * 10 ^ e`, built with one `mkRat`. -/
def parseUnsigned (cs : List Char) : Option ℚ :=
  match splitAtChar (fun c => c = 'e' || c = 'E') cs with
  | (m, none) => (parseMantissa m).map (fun q => mkRat q.1 (10 ^ q.2))
  | (m, some ex) =>
    match parseMantissa m, parseInt ex with
    | some q, some e =>
      if 0 ≤ e then some (mkRat (q.1 * 10 ^ e.toNat) (10 ^ q.2))
      else some (mkRat q.1 (10 ^ (q.2 + (-e).toNat)))
    | _, _ => none

/-- Python `float(token)` on a decimal literal: optional sign, mantissa,
optional exponent.  The value is exact (`inf`/`nan` spellings are outside
the model; the program only compares coordinates with 0 and 1). -/
def parseFloat : List Char → Option ℚ
  | '-' :: cs => (parseUnsigned cs).map (fun q => -q)
  | '+' :: cs => parseUnsigned cs
  | cs => parseUnsigned cs

/-- A filesystem path, as its list of components (`pathlib.Path.parts`). -/
abbrev FPath := List String

/-- One file of the modelled filesystem: its path, whether
`Image.open(...).verify()` succeeds on it, whether opening and reading it as
text succeeds, and its text content. -/
structure FSEntry where
  path : FPath
  verifyOk : Bool
  readOk : Bool
  content : String
deriving DecidableEq, Repr

/-- A filesystem state: existing directories and files.  Read-only during a
run, as the program only reads. -/
structure FS where
  dirs : List FPath
  files : List FSEntry
deriving DecidableEq, Repr

/-- Does `p` name a file? -/
def FS.isFile (fs : FS) (p : FPath) : Bool := fs.files.any (fun e => e.path == p)

/-- `os.path.exists` / `Path.exists`: `p` names a file or a directory. -/
def FS.pathExists (fs : FS) (p : FPath) : Bool :=
  fs.dirs.any (fun d => d == p) || fs.isFile p

/-- `open(p).readlines()`: `some content` on success, `none` when the path
is no readable file (missing, a directory, or an I/O failure). -/
def FS.read (fs : FS) (p : FPath) : Option String :=
  match fs.files.find? (fun e => e.path == p) with
  | some e => if e.readOk then some e.content else none
  | none => none

/-- Does `Image.open(p); img.verify()` succeed?  False when the path does
not name a file. -/
def FS.verifies (fs : FS) (p : FPath) : Bool :=
  match fs.files.find? (fun e => e.path == p) with
  | some e => e.verifyOk
  | none => false

/-- `Path.name`: the final path component. -/
def fileName (p : FPath) : String := p.getLast?.getD ""

/-- Index of the last `'.'` in a file name, if any. -/
def lastDotIdx (name : List Char) : Option Nat :=
  match (name.reverse).findIdx? (fun c => c = '.') with
  | some j => some (name.length - 1 - j)
  | none => none

/-- `pathlib` suffix of a file name: from the last dot, provided that dot is
neither the first nor the last character. -/
def suffixOf (name : List Char) : List Char :=
  match lastDotIdx name with
  | some i => if 0 < i ∧ i < name.length - 1 then name.drop i else []
  | none => []

/-- `pathlib`-style suffix replacement on a file name. -/
def withSuffixName (name : List Char) (suf : List Char) : List Char :=
  let old := suffixOf name
  if old.isEmpty then name ++ suf
  else name.take (name.length - old.length) ++ suf

/-- `Path.with_suffix`: replace the suffix of the final component. -/
def withSuffix (p : FPath) (suf : String) : FPath :=
  p.dropLast ++ [String.mk (withSuffixName (p.getLast?.getD "").data suf.data)]

/-- `IMG_FORMATS` from the source. -/
def IMG_FORMATS : List String := [".jpg", ".jpeg", ".png", ".bmp"]

/-- A component beginning with a dot is hidden: `glob` wildcards (`**` and
`*`) never match it. -/
def isHiddenName (name : String) : Bool :=
  match name.data with
  | '.' :: _ => true
  | _ => false

/-- Does file path `p` match the recursive glob pattern
`folderPath/**/*ext`?  `**/` matches zero or more non-hidden directories,
`*ext` matches a non-hidden final component ending in `ext`; matching
case-folds both sides (Windows `fnmatch`), and the literal `folderPath`
part is matched as given. -/
def globMatch (folderPath : FPath) (ext : String) (p : FPath) : Bool :=
  folderPath.isPrefixOf p &&
  folderPath.length < p.length &&
  (p.drop folderPath.length).all (fun comp => !(isHiddenName comp)) &&
  (lowerStr ext.data).isSuffixOf (lowerStr (fileName p).data)

/-- The `images_list` built by the source: for each extension in
`IMG_FORMATS`, all files matching `folder_path/**/*ext`, concatenated. -/
def listImages (fs : FS) (folderPath : FPath) : List FPath :=
  IMG_FORMATS.flatMap
    (fun ext => (fs.files.map (fun e => e.path)).filter (globMatch folderPath ext))

/-- The `stats` dictionary built by `check_integrity`.  `class_counts` is an
insertion-ordered association list, as a Python dict. -/
structure Stats where
  total_images : Nat
  corrupt_images : Nat
  missing_labels : Nat
  empty_labels : Nat
  valid_objects : Nat
  class_counts : List (Int × Nat)
  errors : List String
deriving DecidableEq, Repr

/-- The initial `stats` value (source lines 55-63). -/
def initStats (n : Nat) : Stats :=
  { total_images := n, corrupt_images := 0, missing_labels := 0,
    empty_labels := 0, valid_objects := 0, class_counts := [], errors := [] }

/-- `d.get(k, 0)` on the class-counts dict: value of the entry holding key
`k` (a dict holds at most one), 0 when absent. -/
def dictGet : List (Int × Nat) → Int → Nat
  | [], _ => 0
  | (a, b) :: t, k => if a == k then b else dictGet t k

/-- `d[k] = d.get(k, 0) + 1` on a Python dict rendered as an
insertion-ordered association list: bump the entry holding key `k` in
place (keeping its position), append a fresh entry with value 1 when the
key is absent. -/
def dictIncr : List (Int × Nat) → Int → List (Int × Nat)
  | [], k => [(k, 1)]
  | (a, b) :: t, k => if a == k then (a, b + 1) :: t else (a, b) :: dictIncr t k

/-- The body of the `for line in lines` loop of `_process_label`
(source lines 135-154): split the line, silently skip it below 5 tokens,
otherwise parse class id and four coordinates; a parse failure records one
error; on success an out-of-range coordinate records one warning error and
the object is counted either way. -/
def processLine (labelName : String) (s : Stats) (line : List Char) : Stats :=
  match splitWS line with
  | p0 :: p1 :: p2 :: p3 :: p4 :: _ =>
    match parseInt p0, parseFloat p1, parseFloat p2, parseFloat p3, parseFloat p4 with
    | some cls, some c1, some c2, some c3, some c4 =>
      let s1 :=
        if c1 < 0 ∨ 1 < c1 ∨ c2 < 0 ∨ 1 < c2 ∨ c3 < 0 ∨ 1 < c3 ∨ c4 < 0 ∨ 1 < c4 then
          { s with errors := s.errors ++ ["Invalid coordinates in " ++ labelName] }
        else s
      { s1 with class_counts := dictIncr s1.class_counts cls,
                valid_objects := s1.valid_objects + 1 }
    | _, _, _, _, _ =>
      { s with errors := s.errors ++ ["Parse error in " ++ labelName ++ ": invalid literal"] }
  | _ => s

/-- `_process_label` (source lines 119-156): read the file (a failure
records one error), count an empty file as one empty label, otherwise fold
the line loop over the lines. -/
def processLabel (fs : FS) (labelPath : FPath) (s : Stats) : Stats :=
  match fs.read labelPath with
  | none => { s with errors := s.errors ++ ["Error reading " ++ fileName labelPath] }
  | some content =>
    let lines := splitLines (normalizeNewlines content.data)
    if lines.isEmpty then { s with empty_labels := s.empty_labels + 1 }
    else lines.foldl (processLine (fileName labelPath)) s

/-- `_find_label_file` (source lines 91-116): same directory with `.txt`
suffix first; else, when some component is literally `images`, the first
such component replaced by `labels`; `none` when neither candidate exists. -/
def findLabelFile (fs : FS) (img : FPath) : Option FPath :=
  let potentialPath := withSuffix img ".txt"
  if fs.pathExists potentialPath then some potentialPath
  else
    match img.findIdx? (fun comp => comp == "images") with
    | some idx =>
      let potentialPath2 := withSuffix (img.set idx "labels") ".txt"
      if fs.pathExists potentialPath2 then some potentialPath2 else none
    | none => none

/-- The body of the `for img_path in images_list` loop of `check_integrity`
(source lines 67-86): a failed verify counts a corrupt image with one error
and skips the rest; otherwise the found label file is processed, or
`missing_labels` is counted. -/
def processImage (fs : FS) (s : Stats) (imgPath : FPath) : Stats :=
  if fs.verifies imgPath then
    match findLabelFile fs imgPath with
    | some labelPath =>
      if fs.pathExists labelPath then processLabel fs labelPath s
      else { s with missing_labels := s.missing_labels + 1 }
    | none => { s with missing_labels := s.missing_labels + 1 }
  else
    { s with corrupt_images := s.corrupt_images + 1,
             errors := s.errors ++ ["Corrupt image: " ++ fileName imgPath] }

/-- `check_integrity` (source lines 28-88): `none` when the split directory
does not exist or no image matches; otherwise the fold of the per-image
loop over the enumerated images. -/
def check_integrity (fs : FS) (datasetRoot : FPath) (folderName : String) : Option Stats :=
  let folderPath := datasetRoot ++ [folderName]
  if fs.pathExists folderPath then
    let imagesList := listImages fs folderPath
    if imagesList.isEmpty then none
    else some (imagesList.foldl (processImage fs) (initStats imagesList.length))
  else none

/-- Rendering of the class-counts dict for the report line (the exact dict
`repr` syntax is abstracted; no property depends on it). -/
def classCountsStr (d : List (Int × Nat)) : String :=
  d.foldl (fun acc q => acc ++ toString q.1 ++ ": " ++ toString q.2 ++ "; ") ""

/-- The separator line of the report (`'=' * 60`). -/
def sepLine : String := String.mk (List.replicate 60 '=')

/-- `print_report` (source lines 159-187), as the list of emitted log
lines: nothing for an absent report; otherwise the fixed statistics lines,
then — only when the error list is non-empty — a header, the first 10
errors, and a remainder line when more than 10 exist. -/
def print_report (stats : Option Stats) (name : String) : List String :=
  match stats with
  | none => []
  | some s =>
    [sepLine,
     "DATASET REPORT: " ++ upperStr name,
     sepLine,
     "Total images:         " ++ toString s.total_images,
     "Corrupt images:       " ++ toString s.corrupt_images,
     "Empty labels:         " ++ (toString s.empty_labels ++ " (background)"),
     "Missing labels:       " ++ toString s.missing_labels,
     "Total objects:        " ++ toString s.valid_objects,
     "Class distribution:   " ++ classCountsStr s.class_counts]
    ++ (if s.errors.isEmpty then []
        else ["Found " ++ (toString s.errors.length ++ " issues:")]
          ++ (s.errors.take 10).map (fun err => "  - " ++ err)
          ++ (if 10 < s.errors.length then
                ["  ... and " ++ (toString (s.errors.length - 10) ++ " more")]
              else []))
    ++ [sepLine]

/-- Sum of the values of the class-counts dict (the total object count it
records). -/
def sumValues (d : List (Int × Nat)) : Nat := (d.map (fun q => q.2)).sum

/-- The class id a line contributes, when the line has at least five tokens
and all five parses succeed; `none` exactly when `processLine` counts
nothing. -/
def parsedClass (line : List Char) : Option Int :=
  match splitWS line with
  | p0 :: p1 :: p2 :: p3 :: p4 :: _ =>
    match parseInt p0, parseFloat p1, parseFloat p2, parseFloat p3, parseFloat p4 with
    | some cls, some _, some _, some _, some _ => some cls
    | _, _, _, _, _ => none
  | _ => none

/-- The label path `_process_label` is called on for this image, if the
per-image loop reaches that call: the discovered candidate, re-checked with
`exists()` as in `check_integrity` line 83. -/
def foundLabel (fs : FS) (img : FPath) : Option FPath :=
  match findLabelFile fs img with
  | some lp => if fs.pathExists lp then some lp else none
  | none => none

/-- Does the image reach `_process_label`: decodable, with a found label? -/
def labelFound (fs : FS) (img : FPath) : Bool :=
  fs.verifies img && (foundLabel fs img).isSome

/-- Number of images of the list whose annotation file is found. -/
def countFound (fs : FS) (l : List FPath) : Nat :=
  (l.filter (fun img => labelFound fs img)).length

/-- Contribution of one label file to `empty_labels`. -/
def labelEmptyDelta (fs : FS) (lp : FPath) : Nat :=
  match fs.read lp with
  | none => 0
  | some content => if (splitLines (normalizeNewlines content.data)).isEmpty then 1 else 0

/-- Contribution of one label file to `valid_objects`. -/
def labelValidDelta (fs : FS) (lp : FPath) : Nat :=
  match fs.read lp with
  | none => 0
  | some content =>
    ((splitLines (normalizeNewlines content.data)).map
      (fun line => if (parsedClass line).isSome then 1 else 0)).sum

/-- Contribution of one label file to the count of class `c`. -/
def labelDistDelta (fs : FS) (lp : FPath) (c : Int) : Nat :=
  match fs.read lp with
  | none => 0
  | some content =>
    ((splitLines (normalizeNewlines content.data)).map
      (fun line => if parsedClass line = some c then 1 else 0)).sum

/-- Contribution of one image to `corrupt_images`. -/
def imgCorruptDelta (fs : FS) (img : FPath) : Nat :=
  if fs.verifies img then 0 else 1

/-- Contribution of one image to `missing_labels`. -/
def imgMissingDelta (fs : FS) (img : FPath) : Nat :=
  if fs.verifies img && !(labelFound fs img) then 1 else 0

/-- Contribution of one image to `empty_labels`. -/
def imgEmptyDelta (fs : FS) (img : FPath) : Nat :=
  if fs.verifies img then
    match foundLabel fs img with
    | some lp => labelEmptyDelta fs lp
    | none => 0
  else 0

/-- Contribution of one image to `valid_objects`. -/
def imgValidDelta (fs : FS) (img : FPath) : Nat :=
  if fs.verifies img then
    match foundLabel fs img with
    | some lp => labelValidDelta fs lp
    | none => 0
  else 0

/-- Contribution of one image to the count of class `c`. -/
def imgDistDelta (fs : FS) (img : FPath) (c : Int) : Nat :=
  if fs.verifies img then
    match foundLabel fs img with
    | some lp => labelDistDelta fs lp c
    | none => 0
  else 0

/-- The invariant of claim C10: the class distribution sums to
`valid_objects` and stores no zero value. -/
def StatsInv (s : Stats) : Prop :=
  sumValues s.class_counts = s.valid_objects ∧ ∀ q ∈ s.class_counts, 1 ≤ q.2

/-- Is this report line a printed error item (`"  - ..."`)? -/
def isErrItemLine (str : String) : Bool := str.data.take 4 == "  - ".data

/-- Is this report line the truncation-remainder line (`"  ... and N more"`)? -/
def isMoreLine (str : String) : Bool := str.data.take 4 == "  ..".data

/-- Dataset root of the concrete example filesystem. -/
def rootW : FPath := ["d:", "ds"]

/-- The `train` split directory of the example filesystem. -/
def trainW : FPath := ["d:", "ds", "train"]

/-- A concrete example filesystem exercising every branch: a valid image
with a `labels/`-convention annotation, a corrupt image, an image with no
annotation, an image with a same-directory annotation holding an
out-of-range coordinate, an image with an empty annotation, an upper-case
extension, and an existing `val` split with no images (`test` is absent). -/
def fsW : FS :=
  { dirs := [["d:", "ds"], ["d:", "ds", "train"], ["d:", "ds", "train", "images"],
             ["d:", "ds", "train", "labels"], ["d:", "ds", "val"]],
    files :=
      [{ path := ["d:", "ds", "train", "images", "a.jpg"], verifyOk := true, readOk := true, content := "" },
       { path := ["d:", "ds", "train", "labels", "a.txt"], verifyOk := false, readOk := true,
         content := "0 0.5 0.5 0.2 0.2\n1 0.1 0.1 0.05 0.05\n" },
       { path := ["d:", "ds", "train", "images", "b.jpg"], verifyOk := false, readOk := true, content := "" },
       { path := ["d:", "ds", "train", "images", "c.jpg"], verifyOk := true, readOk := true, content := "" },
       { path := ["d:", "ds", "train", "images", "d.jpg"], verifyOk := true, readOk := true, content := "" },
       { path := ["d:", "ds", "train", "images", "d.txt"], verifyOk := false, readOk := true,
         content := "2 0.5 1.5 0.3 0.2\n" },
       { path := ["d:", "ds", "train", "images", "e.jpg"], verifyOk := true, readOk := true, content := "" },
       { path := ["d:", "ds", "train", "labels", "e.txt"], verifyOk := false, readOk := true, content := "" },
       { path := ["d:", "ds", "train", "images", "u.PNG"], verifyOk := true, readOk := true, content := "" },
       { path := ["d:", "ds", "train", "labels", "u.txt"], verifyOk := false, readOk := true,
         content := "0 1 0 1 1\n" }] }

/-- The report `check_integrity fsW rootW "train"` produces. -/
def sW : Stats :=
  { total_images := 6, corrupt_images := 1, missing_labels := 1,
    empty_labels := 1, valid_objects := 4,
    class_counts := [(0, 2), (1, 1), (2, 1)],
    errors := ["Corrupt image: b.jpg", "Invalid coordinates in d.txt"] }

/-- A filesystem whose only annotation file consists of a single blank
line: it has no object lines, yet is not an empty file. -/
def fsBlank : FS :=
  { dirs := [["x"]],
    files := [{ path := ["x", "b.txt"], verifyOk := false, readOk := true, content := "\n" }] }

/-- A report with twelve errors, to exercise the truncated error listing. -/
def sE : Stats :=
  { total_images := 12, corrupt_images := 12, missing_labels := 0,
    empty_labels := 0, valid_objects := 0, class_counts := [],
    errors := ["e01", "e02", "e03", "e04", "e05", "e06", "e07", "e08", "e09",
               "e10", "e11", "e12"] }

/-- A filesystem holding one image file whose name starts with a dot; its
`pathlib` extension is `.jpg`. -/
def fsHidden : FS :=
  { dirs := [["r"], ["r", "train"]],
    files := [{ path := ["r", "train", ".a.jpg"], verifyOk := true, readOk := true, content := "" }] }
theorem dictGet_dictIncr (d : List (Int × Nat)) (k c : Int) :
    dictGet (dictIncr d k) c = dictGet d c + (if c = k then 1 else 0) := by
  induction d with
  | nil =>
    by_cases h : k = c
    · subst h
      simp [dictIncr, dictGet]
    · simp [dictIncr, dictGet, h, Ne.symm h]
  | cons hd t ih =>
    obtain ⟨a, b⟩ := hd
    by_cases hak : a = k
    · subst hak
      by_cases hac : a = c
      · subst hac
        simp [dictIncr, dictGet]
      · simp [dictIncr, dictGet, hac, Ne.symm hac]
    · by_cases hac : a = c
      · subst hac
        simp [dictIncr, dictGet, hak]
      · simp [dictIncr, dictGet, hak, hac, ih]

theorem sumValues_dictIncr (d : List (Int × Nat)) (k : Int) :
    sumValues (dictIncr d k) = sumValues d + 1 := by
  induction d with
  | nil => simp [dictIncr, sumValues]
  | cons hd t ih =>
    obtain ⟨a, b⟩ := hd
    by_cases hak : a = k
    · simp [dictIncr, hak, sumValues]
      omega
    · simp [dictIncr, hak, sumValues] at ih ⊢
      omega

theorem dictIncr_pos (d : List (Int × Nat)) (k : Int)
    (h : ∀ q ∈ d, 1 ≤ q.2) : ∀ q ∈ dictIncr d k, 1 ≤ q.2 := by
  induction d with
  | nil => simp [dictIncr]
  | cons hd t ih =>
    obtain ⟨a, b⟩ := hd
    by_cases hak : a = k
    · simp only [dictIncr, hak, beq_self_eq_true, if_true]
      intro q hq
      rcases List.mem_cons.mp hq with h1 | h2
      · subst h1; simp
      · exact h q (List.mem_cons_of_mem _ h2)
    · simp only [dictIncr, beq_iff_eq, hak, if_false]
      intro q hq
      rcases List.mem_cons.mp hq with h1 | h2
      · subst h1
        exact h (a, b) (List.mem_cons_self _ _)
      · exact ih (fun q hq => h q (List.mem_cons_of_mem _ hq)) q h2
theorem processLine_spec (nm : String) (s : Stats) (line : List Char) :
    (processLine nm s line).total_images = s.total_images ∧
    (processLine nm s line).corrupt_images = s.corrupt_images ∧
    (processLine nm s line).missing_labels = s.missing_labels ∧
    (processLine nm s line).empty_labels = s.empty_labels ∧
    (processLine nm s line).valid_objects
      = s.valid_objects + (if (parsedClass line).isSome then 1 else 0) ∧
    ∀ c, dictGet (processLine nm s line).class_counts c
      = dictGet s.class_counts c + (if parsedClass line = some c then 1 else 0) := by
  obtain ⟨r, hr⟩ : ∃ x, x = processLine nm s line := ⟨_, rfl⟩
  rw [← hr]
  unfold processLine at hr
  split at hr
  · rename_i xx p0 p1 p2 p3 p4 rest hsp
    have hpc : parsedClass line =
        (match parseInt p0, parseFloat p1, parseFloat p2, parseFloat p3, parseFloat p4 with
          | some cls, some _, some _, some _, some _ => some cls
          | _, _, _, _, _ => (none : Option Int)) := by
      unfold parsedClass
      rw [hsp]
    rcases h0 : parseInt p0 with _ | cls <;>
      rcases h1 : parseFloat p1 with _ | x1 <;>
      rcases h2 : parseFloat p2 with _ | x2 <;>
      rcases h3 : parseFloat p3 with _ | x3 <;>
      rcases h4 : parseFloat p4 with _ | x4 <;>
      simp only [h0, h1, h2, h3, h4] at hr hpc <;>
      try (simp [hr, hpc]; done)
    split at hr <;>
      refine ⟨by simp [hr], by simp [hr], by simp [hr], by simp [hr], by simp [hr, hpc], ?_⟩ <;>
      intro c <;>
      by_cases hc : c = cls
    · subst hc; simp [hr, hpc, dictGet_dictIncr]
    · simp [hr, hpc, dictGet_dictIncr, hc, Ne.symm hc]
    · subst hc; simp [hr, hpc, dictGet_dictIncr]
    · simp [hr, hpc, dictGet_dictIncr, hc, Ne.symm hc]
  · rename_i xx hsp
    have hpc : parsedClass line = none := by
      unfold parsedClass
      rcases hs2 : splitWS line with _ | ⟨p0, _ | ⟨p1, _ | ⟨p2, _ | ⟨p3, _ | ⟨p4, rest⟩⟩⟩⟩⟩ <;>
        first
          | rfl
          | exact (hsp _ _ _ _ _ _ hs2).elim
    simp [hr, hpc]
theorem foldLines_spec (nm : String) (lines : List (List Char)) (s : Stats) :
    (lines.foldl (processLine nm) s).total_images = s.total_images ∧
    (lines.foldl (processLine nm) s).corrupt_images = s.corrupt_images ∧
    (lines.foldl (processLine nm) s).missing_labels = s.missing_labels ∧
    (lines.foldl (processLine nm) s).empty_labels = s.empty_labels ∧
    (lines.foldl (processLine nm) s).valid_objects
      = s.valid_objects
        + (lines.map (fun l => if (parsedClass l).isSome then 1 else 0)).sum ∧
    ∀ c, dictGet (lines.foldl (processLine nm) s).class_counts c
      = dictGet s.class_counts c
        + (lines.map (fun l => if parsedClass l = some c then 1 else 0)).sum := by
  induction lines generalizing s with
  | nil => simp
  | cons line rest ih =>
    obtain ⟨ht, hc, hm, he, hv, hd⟩ := processLine_spec nm s line
    obtain ⟨it, ic, im, ie, iv, id⟩ := ih (processLine nm s line)
    refine ⟨?_, ?_, ?_, ?_, ?_, ?_⟩ <;> simp only [List.foldl_cons, List.map_cons, List.sum_cons]
    · rw [it, ht]
    · rw [ic, hc]
    · rw [im, hm]
    · rw [ie, he]
    · rw [iv, hv]; omega
    · intro c
      rw [id c, hd c]
      omega
theorem processLabel_spec (fs : FS) (lp : FPath) (s : Stats) :
    (processLabel fs lp s).total_images = s.total_images ∧
    (processLabel fs lp s).corrupt_images = s.corrupt_images ∧
    (processLabel fs lp s).missing_labels = s.missing_labels ∧
    (processLabel fs lp s).empty_labels = s.empty_labels + labelEmptyDelta fs lp ∧
    (processLabel fs lp s).valid_objects = s.valid_objects + labelValidDelta fs lp ∧
    ∀ c, dictGet (processLabel fs lp s).class_counts c
      = dictGet s.class_counts c + labelDistDelta fs lp c := by
  unfold processLabel labelEmptyDelta labelValidDelta labelDistDelta
  rcases hrd : fs.read lp with _ | content
  · simp
  · simp only []
    by_cases hemp : (splitLines (normalizeNewlines content.data)).isEmpty
    · rw [List.isEmpty_iff] at hemp
      simp [hemp]
    · rw [if_neg hemp]
      obtain ⟨ht, hc, hm, he, hv, hd⟩ :=
        foldLines_spec (fileName lp) (splitLines (normalizeNewlines content.data)) s
      rw [List.isEmpty_iff] at hemp
      refine ⟨ht, hc, hm, ?_, hv, hd⟩
      rw [he]
      simp [hemp]
theorem processImage_spec (fs : FS) (s : Stats) (img : FPath) :
    (processImage fs s img).total_images = s.total_images ∧
    (processImage fs s img).corrupt_images = s.corrupt_images + imgCorruptDelta fs img ∧
    (processImage fs s img).missing_labels = s.missing_labels + imgMissingDelta fs img ∧
    (processImage fs s img).empty_labels = s.empty_labels + imgEmptyDelta fs img ∧
    (processImage fs s img).valid_objects = s.valid_objects + imgValidDelta fs img ∧
    ∀ c, dictGet (processImage fs s img).class_counts c
      = dictGet s.class_counts c + imgDistDelta fs img c := by
  unfold processImage imgCorruptDelta imgMissingDelta imgEmptyDelta imgValidDelta imgDistDelta
    labelFound foundLabel
  by_cases hv : fs.verifies img
  · rcases hf : findLabelFile fs img with _ | lp
    · simp [hv, hf]
    · by_cases hex : fs.pathExists lp
      · obtain ⟨ht, hc, hm, he, hval, hd⟩ := processLabel_spec fs lp s
        simp [hv, hf, hex, ht, hc, hm, he, hval, hd]
      · simp [hv, hf, hex]
  · simp [hv]
theorem foldImages_spec (fs : FS) (l : List FPath) (s : Stats) :
    (l.foldl (processImage fs) s).total_images = s.total_images ∧
    (l.foldl (processImage fs) s).corrupt_images
      = s.corrupt_images + (l.map (imgCorruptDelta fs)).sum ∧
    (l.foldl (processImage fs) s).missing_labels
      = s.missing_labels + (l.map (imgMissingDelta fs)).sum ∧
    (l.foldl (processImage fs) s).empty_labels
      = s.empty_labels + (l.map (imgEmptyDelta fs)).sum ∧
    (l.foldl (processImage fs) s).valid_objects
      = s.valid_objects + (l.map (imgValidDelta fs)).sum ∧
    ∀ c, dictGet (l.foldl (processImage fs) s).class_counts c
      = dictGet s.class_counts c + (l.map (fun i => imgDistDelta fs i c)).sum := by
  induction l generalizing s with
  | nil => simp
  | cons img rest ih =>
    obtain ⟨ht, hc, hm, he, hv, hd⟩ := processImage_spec fs s img
    obtain ⟨it, ic, im, ie, iv, id⟩ := ih (processImage fs s img)
    refine ⟨?_, ?_, ?_, ?_, ?_, ?_⟩ <;> simp only [List.foldl_cons, List.map_cons, List.sum_cons]
    · rw [it, ht]
    · rw [ic, hc]; omega
    · rw [im, hm]; omega
    · rw [ie, he]; omega
    · rw [iv, hv]; omega
    · intro c
      rw [id c, hd c]
      omega
theorem imgDelta_partition (fs : FS) (img : FPath) :
    imgCorruptDelta fs img + imgMissingDelta fs img
      + (if labelFound fs img then 1 else 0) = 1 := by
  unfold imgCorruptDelta imgMissingDelta labelFound
  by_cases hv : fs.verifies img <;>
    rcases hfl : foundLabel fs img with _ | lp <;>
    simp [hv, hfl]

theorem countFound_eq_sum (fs : FS) (l : List FPath) :
    countFound fs l = (l.map (fun i => if labelFound fs i then 1 else 0)).sum := by
  unfold countFound
  induction l with
  | nil => simp
  | cons img rest ih =>
    by_cases h : labelFound fs img <;> simp [h, ih, Nat.add_comm]

theorem sum_partition_one (l : List FPath) (f g k : FPath → Nat)
    (hp : ∀ x, f x + g x + k x = 1) :
    (l.map f).sum + (l.map g).sum + (l.map k).sum = l.length := by
  induction l with
  | nil => simp
  | cons x rest ih =>
    have := hp x
    simp only [List.map_cons, List.sum_cons, List.length_cons]
    omega

/-- C1: for a split directory holding `N` matching images, the final report
partitions the images: `corrupt_images + missing_labels + (images whose
annotation file was found) = N = total_images`. -/
theorem spec_c1 (fs : FS) (root : FPath) (nm : String) (s : Stats)
    (h : check_integrity fs root nm = some s) :
    s.corrupt_images + s.missing_labels + countFound fs (listImages fs (root ++ [nm]))
      = s.total_images ∧
    s.total_images = (listImages fs (root ++ [nm])).length := by
  unfold check_integrity at h
  simp only [] at h
  split at h
  · split at h
    · exact absurd h (by simp)
    · obtain ⟨ht, hc, hm, he, hv, hd⟩ :=
        foldImages_spec fs (listImages fs (root ++ [nm]))
          (initStats (listImages fs (root ++ [nm])).length)
      rw [Option.some_inj] at h
      subst h
      have hsum := sum_partition_one (listImages fs (root ++ [nm])) _ _ _ (imgDelta_partition fs)
      rw [countFound_eq_sum]
      refine ⟨?_, ?_⟩
      · rw [hc, hm, ht]
        simp only [initStats]
        omega
      · rw [ht]
        simp [initStats]
  · exact absurd h (by simp)

/-- Witness for C1 on the concrete filesystem `fsW`. -/
theorem spec_c1_witness :
    check_integrity fsW rootW "train" = some sW ∧
    (sW.corrupt_images + sW.missing_labels + countFound fsW (listImages fsW (rootW ++ ["train"]))
        = sW.total_images ∧
      sW.total_images = (listImages fsW (rootW ++ ["train"])).length) :=
  ⟨by decide, spec_c1 fsW rootW "train" sW (by decide)⟩
theorem processLine_shape (nm : String) (s : Stats) (line : List Char) :
    ((processLine nm s line).class_counts = s.class_counts ∧
      (processLine nm s line).valid_objects = s.valid_objects) ∨
    ∃ cls, (processLine nm s line).class_counts = dictIncr s.class_counts cls ∧
      (processLine nm s line).valid_objects = s.valid_objects + 1 := by
  obtain ⟨r, hr⟩ : ∃ x, x = processLine nm s line := ⟨_, rfl⟩
  rw [← hr]
  unfold processLine at hr
  split at hr
  · rename_i xx p0 p1 p2 p3 p4 rest hsp
    rcases h0 : parseInt p0 with _ | cls <;>
      rcases h1 : parseFloat p1 with _ | x1 <;>
      rcases h2 : parseFloat p2 with _ | x2 <;>
      rcases h3 : parseFloat p3 with _ | x3 <;>
      rcases h4 : parseFloat p4 with _ | x4 <;>
      simp only [h0, h1, h2, h3, h4] at hr <;>
      try (left; simp [hr]; done)
    right
    refine ⟨cls, ?_⟩
    split at hr <;> simp [hr]
  · left
    simp [hr]

theorem statsInv_init (n : Nat) : StatsInv (initStats n) := by
  constructor <;> simp [initStats, sumValues]

theorem processLine_inv (nm : String) (s : Stats) (line : List Char)
    (h : StatsInv s) : StatsInv (processLine nm s line) := by
  rcases processLine_shape nm s line with ⟨hc, hv⟩ | ⟨cls, hc, hv⟩
  · exact ⟨by rw [hc, hv]; exact h.1, by rw [hc]; exact h.2⟩
  · constructor
    · rw [hc, hv, sumValues_dictIncr, h.1]
    · rw [hc]
      exact dictIncr_pos _ _ h.2

theorem foldLines_inv (nm : String) (lines : List (List Char)) (s : Stats)
    (h : StatsInv s) : StatsInv (lines.foldl (processLine nm) s) := by
  induction lines generalizing s with
  | nil => exact h
  | cons line rest ih => exact ih _ (processLine_inv nm s line h)

theorem processLabel_inv (fs : FS) (lp : FPath) (s : Stats)
    (h : StatsInv s) : StatsInv (processLabel fs lp s) := by
  unfold processLabel
  rcases fs.read lp with _ | content
  · exact ⟨h.1, h.2⟩
  · simp only []
    by_cases hemp : (splitLines (normalizeNewlines content.data)).isEmpty
    · simp only [hemp, if_true]
      exact ⟨h.1, h.2⟩
    · simp only [hemp, if_false]
      exact foldLines_inv _ _ _ h
theorem processImage_inv (fs : FS) (s : Stats) (img : FPath)
    (h : StatsInv s) : StatsInv (processImage fs s img) := by
  unfold processImage
  by_cases hv : fs.verifies img
  · rcases findLabelFile fs img with _ | lp <;> simp only [hv, if_true]
    · exact ⟨h.1, h.2⟩
    · by_cases hex : fs.pathExists lp
      · simp only [hex, if_true]
        exact processLabel_inv fs lp s h
      · simp only [hex, if_false]
        exact ⟨h.1, h.2⟩
  · simp only [hv, if_false]
    exact ⟨h.1, h.2⟩

theorem foldImages_inv (fs : FS) (l : List FPath) (s : Stats)
    (h : StatsInv s) : StatsInv (l.foldl (processImage fs) s) := by
  induction l generalizing s with
  | nil => exact h
  | cons img rest ih => exact ih _ (processImage_inv fs s img h)

/-- C10: at every point of the per-image fold (hence also in the final
report) the class distribution sums to `valid_objects` and holds no zero
value: both counters move together, exactly on successfully parsed lines. -/
theorem spec_c10 (fs : FS) (root : FPath) (nm : String) (images : List FPath) (n : Nat) :
    StatsInv ((images.take n).foldl (processImage fs) (initStats images.length)) ∧
    ∀ s, check_integrity fs root nm = some s → StatsInv s := by
  constructor
  · exact foldImages_inv fs (images.take n) _ (statsInv_init images.length)
  · intro s h
    unfold check_integrity at h
    simp only [] at h
    split at h
    · split at h
      · exact absurd h (by simp)
      · rw [Option.some_inj] at h
        subst h
        exact foldImages_inv fs _ _ (statsInv_init _)
    · exact absurd h (by simp)

/-- Witness for C10: the invariant holds midway and at the end of the
concrete run on `fsW`. -/
theorem spec_c10_witness :
    (StatsInv (((listImages fsW (rootW ++ ["train"])).take 2).foldl (processImage fsW)
        (initStats (listImages fsW (rootW ++ ["train"])).length)) ∧
      check_integrity fsW rootW "train" = some sW ∧ StatsInv sW) :=
  ⟨(spec_c10 fsW rootW "train" (listImages fsW (rootW ++ ["train"])) 2).1,
   by decide,
   (spec_c10 fsW rootW "train" (listImages fsW (rootW ++ ["train"])) 2).2 sW (by decide)⟩
/-- C9: the aggregate counts and the class distribution of a run are
invariant under the enumeration order of the images: folding the per-image
loop over any two permutations of the image list gives the same
`total_images`, `corrupt_images`, `missing_labels`, `empty_labels`,
`valid_objects` and class counts (only the error-list order may differ), so
two runs on an unchanged tree report identical aggregates. -/
theorem spec_c9 (fs : FS) (l1 l2 : List FPath) (hp : l1.Perm l2) :
    (l1.foldl (processImage fs) (initStats l1.length)).total_images
      = (l2.foldl (processImage fs) (initStats l2.length)).total_images ∧
    (l1.foldl (processImage fs) (initStats l1.length)).corrupt_images
      = (l2.foldl (processImage fs) (initStats l2.length)).corrupt_images ∧
    (l1.foldl (processImage fs) (initStats l1.length)).missing_labels
      = (l2.foldl (processImage fs) (initStats l2.length)).missing_labels ∧
    (l1.foldl (processImage fs) (initStats l1.length)).empty_labels
      = (l2.foldl (processImage fs) (initStats l2.length)).empty_labels ∧
    (l1.foldl (processImage fs) (initStats l1.length)).valid_objects
      = (l2.foldl (processImage fs) (initStats l2.length)).valid_objects ∧
    ∀ c, dictGet (l1.foldl (processImage fs) (initStats l1.length)).class_counts c
      = dictGet (l2.foldl (processImage fs) (initStats l2.length)).class_counts c := by
  obtain ⟨t1, c1, m1, e1, v1, d1⟩ := foldImages_spec fs l1 (initStats l1.length)
  obtain ⟨t2, c2, m2, e2, v2, d2⟩ := foldImages_spec fs l2 (initStats l2.length)
  have hlen : l1.length = l2.length := hp.length_eq
  refine ⟨?_, ?_, ?_, ?_, ?_, ?_⟩
  · rw [t1, t2]
    simp [initStats, hlen]
  · rw [c1, c2, (hp.map (imgCorruptDelta fs)).sum_eq]
    simp [initStats]
  · rw [m1, m2, (hp.map (imgMissingDelta fs)).sum_eq]
    simp [initStats]
  · rw [e1, e2, (hp.map (imgEmptyDelta fs)).sum_eq]
    simp [initStats]
  · rw [v1, v2, (hp.map (imgValidDelta fs)).sum_eq]
    simp [initStats]
  · intro c
    rw [d1 c, d2 c, (hp.map (fun i => imgDistDelta fs i c)).sum_eq]
    simp [initStats]

/-- Witness for C9: a transposed enumeration of two images of `fsW`. -/
theorem spec_c9_witness :
    ([["d:", "ds", "train", "images", "a.jpg"], ["d:", "ds", "train", "images", "b.jpg"]].Perm
      [["d:", "ds", "train", "images", "b.jpg"], ["d:", "ds", "train", "images", "a.jpg"]]) ∧
    ([["d:", "ds", "train", "images", "a.jpg"], ["d:", "ds", "train", "images", "b.jpg"]].foldl
        (processImage fsW) (initStats 2)).valid_objects
      = ([["d:", "ds", "train", "images", "b.jpg"], ["d:", "ds", "train", "images", "a.jpg"]].foldl
        (processImage fsW) (initStats 2)).valid_objects ∧
    dictGet ([["d:", "ds", "train", "images", "a.jpg"], ["d:", "ds", "train", "images", "b.jpg"]].foldl
        (processImage fsW) (initStats 2)).class_counts 0
      = dictGet ([["d:", "ds", "train", "images", "b.jpg"], ["d:", "ds", "train", "images", "a.jpg"]].foldl
        (processImage fsW) (initStats 2)).class_counts 0 := by
  have hperm : ([["d:", "ds", "train", "images", "a.jpg"], ["d:", "ds", "train", "images", "b.jpg"]] : List FPath).Perm
      [["d:", "ds", "train", "images", "b.jpg"], ["d:", "ds", "train", "images", "a.jpg"]] :=
    List.Perm.swap _ _ _
  have h := spec_c9 fsW _ _ hperm
  exact ⟨hperm, h.2.2.2.2.1, h.2.2.2.2.2 0⟩
/-- C2: a line of five or more tokens whose class id and four coordinates
all parse, with some coordinate outside `[0, 1]`, appends exactly one error
entry — the fixed string naming the annotation file, with no coordinate
values in it — and the object is still counted: `valid_objects` rises by 1
and the class-distribution count of its class id rises by 1. -/
theorem spec_c2 (labelName : String) (s : Stats) (line : List Char)
    (p0 p1 p2 p3 p4 : List Char) (rest : List (List Char)) (cls : Int)
    (x1 x2 x3 x4 : ℚ)
    (hsplit : splitWS line = p0 :: p1 :: p2 :: p3 :: p4 :: rest)
    (h0 : parseInt p0 = some cls)
    (h1 : parseFloat p1 = some x1) (h2 : parseFloat p2 = some x2)
    (h3 : parseFloat p3 = some x3) (h4 : parseFloat p4 = some x4)
    (hout : x1 < 0 ∨ 1 < x1 ∨ x2 < 0 ∨ 1 < x2 ∨ x3 < 0 ∨ 1 < x3 ∨ x4 < 0 ∨ 1 < x4) :
    processLine labelName s line =
      { s with errors := s.errors ++ ["Invalid coordinates in " ++ labelName],
               valid_objects := s.valid_objects + 1,
               class_counts := dictIncr s.class_counts cls } ∧
    dictGet (processLine labelName s line).class_counts cls
      = dictGet s.class_counts cls + 1 := by
  have hmain : processLine labelName s line =
      { s with errors := s.errors ++ ["Invalid coordinates in " ++ labelName],
               valid_objects := s.valid_objects + 1,
               class_counts := dictIncr s.class_counts cls } := by
    unfold processLine
    rw [hsplit]
    simp only [h0, h1, h2, h3, h4]
    rw [if_pos hout]
  refine ⟨hmain, ?_⟩
  rw [hmain]
  simp [dictGet_dictIncr]

/-- Witness for C2: the line `2 0.5 1.5 0.3 0.2` (second coordinate 1.5). -/
theorem spec_c2_witness :
    processLine "d.txt" (initStats 1) ("2 0.5 1.5 0.3 0.2".data) =
      { initStats 1 with errors := ["Invalid coordinates in d.txt"],
                         valid_objects := 1,
                         class_counts := [(2, 1)] } ∧
    dictGet (processLine "d.txt" (initStats 1) ("2 0.5 1.5 0.3 0.2".data)).class_counts 2
      = dictGet (initStats 1).class_counts 2 + 1 := by
  have h := spec_c2 "d.txt" (initStats 1) ("2 0.5 1.5 0.3 0.2".data)
    ("2".data) ("0.5".data) ("1.5".data) ("0.3".data) ("0.2".data) [] 2
    (mkRat 1 2) (mkRat 3 2) (mkRat 3 10) (mkRat 1 5)
    (by decide) (by decide) (by decide) (by decide) (by decide) (by decide)
    (by right; right; right; left; decide)
  refine ⟨?_, h.2⟩
  rw [h.1]
  decide
/-- C5: a line with fewer than five whitespace-separated tokens changes
nothing: no counter moves and no error entry is appended. -/
theorem spec_c5 (nm : String) (s : Stats) (line : List Char)
    (h : (splitWS line).length < 5) :
    processLine nm s line = s := by
  obtain ⟨r, hr⟩ : ∃ x, x = processLine nm s line := ⟨_, rfl⟩
  rw [← hr]
  unfold processLine at hr
  split at hr
  · rename_i xx p0 p1 p2 p3 p4 rest hsp
    rw [hsp] at h
    simp only [List.length_cons] at h
    omega
  · exact hr

/-- Witness for C5: the two-token line `short line`. -/
theorem spec_c5_witness :
    (splitWS ("short line".data)).length < 5 ∧
    processLine "c.txt" (initStats 1) ("short line".data) = initStats 1 :=
  ⟨by decide, spec_c5 "c.txt" (initStats 1) ("short line".data) (by decide)⟩

/-- C6: annotation discovery tries the same-directory `.txt` candidate
first, then — when some path component is literally `images` — the first
such component replaced by `labels`; the first existing candidate wins,
`none` results when neither exists, and a decodable image with no found
annotation only increments `missing_labels` (no error entry). -/
theorem spec_c6 (fs : FS) (img : FPath) (s : Stats) :
    (fs.pathExists (withSuffix img ".txt") = true →
      findLabelFile fs img = some (withSuffix img ".txt")) ∧
    (∀ idx, fs.pathExists (withSuffix img ".txt") = false →
      img.findIdx? (fun comp => comp == "images") = some idx →
      fs.pathExists (withSuffix (img.set idx "labels") ".txt") = true →
      findLabelFile fs img = some (withSuffix (img.set idx "labels") ".txt")) ∧
    (∀ idx, fs.pathExists (withSuffix img ".txt") = false →
      img.findIdx? (fun comp => comp == "images") = some idx →
      fs.pathExists (withSuffix (img.set idx "labels") ".txt") = false →
      findLabelFile fs img = none) ∧
    (fs.pathExists (withSuffix img ".txt") = false →
      img.findIdx? (fun comp => comp == "images") = none →
      findLabelFile fs img = none) ∧
    (findLabelFile fs img = none → fs.verifies img = true →
      processImage fs s img = { s with missing_labels := s.missing_labels + 1 }) := by
  refine ⟨?_, ?_, ?_, ?_, ?_⟩
  · intro h
    unfold findLabelFile
    simp only []
    rw [h]
    rfl
  · intro idx h1 h2 h3
    unfold findLabelFile
    simp only []
    rw [h1, h2]
    simp [h3]
  · intro idx h1 h2 h3
    unfold findLabelFile
    simp only []
    rw [h1, h2]
    simp [h3]
  · intro h1 h2
    unfold findLabelFile
    simp only []
    rw [h1, h2]
    rfl
  · intro hn hv
    unfold processImage
    rw [hv, hn]
    rfl
/-- Witness for C6 on `fsW`: a same-directory hit (`d.jpg`), an
`images`→`labels` hit (`a.jpg`), and a miss (`c.jpg`) that only bumps
`missing_labels`. -/
theorem spec_c6_witness :
    findLabelFile fsW ["d:", "ds", "train", "images", "d.jpg"]
      = some (withSuffix ["d:", "ds", "train", "images", "d.jpg"] ".txt") ∧
    findLabelFile fsW ["d:", "ds", "train", "images", "a.jpg"]
      = some (withSuffix (["d:", "ds", "train", "images", "a.jpg"].set 3 "labels") ".txt") ∧
    findLabelFile fsW ["d:", "ds", "train", "images", "c.jpg"] = none ∧
    processImage fsW (initStats 6) ["d:", "ds", "train", "images", "c.jpg"]
      = { initStats 6 with missing_labels := 1 } := by
  refine ⟨(spec_c6 fsW ["d:", "ds", "train", "images", "d.jpg"] (initStats 6)).1 (by decide),
          (spec_c6 fsW ["d:", "ds", "train", "images", "a.jpg"] (initStats 6)).2.1 3
            (by decide) (by decide) (by decide),
          (spec_c6 fsW ["d:", "ds", "train", "images", "c.jpg"] (initStats 6)).2.2.1 3
            (by decide) (by decide) (by decide),
          ?_⟩
  have h := (spec_c6 fsW ["d:", "ds", "train", "images", "c.jpg"] (initStats 6)).2.2.2.2
    ((spec_c6 fsW ["d:", "ds", "train", "images", "c.jpg"] (initStats 6)).2.2.1 3
      (by decide) (by decide) (by decide)) (by decide)
  rw [h]
  decide
/-- C7: no report is produced when the split directory does not exist, nor
when it exists but no image matches; and printing an absent report emits
nothing. -/
theorem spec_c7 (fs : FS) (root : FPath) (nm : String) :
    (fs.pathExists (root ++ [nm]) = false → check_integrity fs root nm = none) ∧
    (fs.pathExists (root ++ [nm]) = true → listImages fs (root ++ [nm]) = [] →
      check_integrity fs root nm = none) ∧
    print_report none nm = [] := by
  refine ⟨?_, ?_, rfl⟩
  · intro h
    unfold check_integrity
    simp only []
    rw [h]
    rfl
  · intro h1 h2
    unfold check_integrity
    simp only []
    rw [h1, h2]
    rfl

/-- Witness for C7 on `fsW`: the `test` directory is absent and the `val`
directory holds no image. -/
theorem spec_c7_witness :
    check_integrity fsW rootW "test" = none ∧
    check_integrity fsW rootW "val" = none ∧
    print_report none "val" = [] :=
  ⟨(spec_c7 fsW rootW "test").1 (by decide),
   (spec_c7 fsW rootW "val").2.1 (by decide) (by decide),
   (spec_c7 fsW rootW "val").2.2⟩
/-- Counterexample to C4 as stated: an annotation file whose content is one
blank line (`"\n"`) has no object line at all, yet `empty_labels` is not
incremented — `readlines` returns one (blank) line, so the `if not lines`
branch is not taken. -/
theorem spec_c4_cex :
    (splitLines (normalizeNewlines ("\n".data)) ≠ [] ∧
      ∀ l ∈ splitLines (normalizeNewlines ("\n".data)), splitWS l = []) ∧
    FS.read fsBlank ["x", "b.txt"] = some "\n" ∧
    ¬ (processLabel fsBlank ["x", "b.txt"] (initStats 1)).empty_labels
        = (initStats 1).empty_labels + 1 := by
  refine ⟨⟨by decide, by decide⟩, by decide, by decide⟩

/-- C4 as amended: `empty_labels` rises by exactly 1 (with `valid_objects`
untouched) exactly for a readable annotation file with no lines at all; a
file holding only blank/whitespace lines changes nothing at all. -/
theorem spec_c4 (fs : FS) (lp : FPath) (s : Stats) (content : String)
    (hread : fs.read lp = some content) :
    (splitLines (normalizeNewlines content.data) = [] →
      processLabel fs lp s = { s with empty_labels := s.empty_labels + 1 }) ∧
    (splitLines (normalizeNewlines content.data) ≠ [] →
      (∀ l ∈ splitLines (normalizeNewlines content.data), splitWS l = []) →
      processLabel fs lp s = s) := by
  constructor
  · intro hnil
    unfold processLabel
    rw [hread]
    simp only [hnil]
    rfl
  · intro hne hblank
    unfold processLabel
    rw [hread]
    simp only []
    rw [if_neg (by simpa using hne)]
    have hfold : ∀ (lines : List (List Char)), (∀ l ∈ lines, splitWS l = []) →
        lines.foldl (processLine (fileName lp)) s = s := by
      intro lines
      induction lines with
      | nil => intro _; rfl
      | cons line rest ih =>
        intro hb
        have hline : processLine (fileName lp) s line = s := by
          unfold processLine
          rw [hb line (List.mem_cons_self _ _)]
        simp only [List.foldl_cons, hline]
        exact ih (fun l hl => hb l (List.mem_cons_of_mem _ hl))
    exact hfold _ hblank

/-- Witness for C4 as amended: the empty `e.txt` of `fsW` bumps
`empty_labels` once; the blank-line file of `fsBlank` changes nothing. -/
theorem spec_c4_witness :
    processLabel fsW ["d:", "ds", "train", "labels", "e.txt"] (initStats 6)
      = { initStats 6 with empty_labels := (initStats 6).empty_labels + 1 } ∧
    processLabel fsBlank ["x", "b.txt"] (initStats 1) = initStats 1 :=
  ⟨(spec_c4 fsW ["d:", "ds", "train", "labels", "e.txt"] (initStats 6) "" (by decide)).1
      (by decide),
   (spec_c4 fsBlank ["x", "b.txt"] (initStats 1) "\n" (by decide)).2
      (by decide) (by decide)⟩
theorem suffixOf_suffix (name : List Char) : suffixOf name <:+ name := by
  unfold suffixOf
  rcases lastDotIdx name with _ | i
  · exact List.nil_suffix
  · simp only []
    split
    · exact List.drop_suffix i name
    · exact List.nil_suffix

theorem lowerStr_suffixOf_isSuffixOf (name : List Char) :
    (lowerStr (suffixOf name)).isSuffixOf (lowerStr name) = true := by
  rw [List.isSuffixOf_iff_suffix]
  exact (suffixOf_suffix name).map lowerChar

/-- Counterexample to C3 as stated: the file `.a.jpg` has extension `.jpg`
(case-insensitively in the allow-list), yet `glob` treats names beginning
with a dot as hidden, so the file is not enumerated. -/
theorem spec_c3_cex :
    String.mk (lowerStr (suffixOf (fileName ["r", "train", ".a.jpg"]).data)) ∈ IMG_FORMATS ∧
    ["r", "train", ".a.jpg"] ∈ fsHidden.files.map (fun e => e.path) ∧
    ["r", "train", ".a.jpg"] ∉ listImages fsHidden ["r", "train"] := by
  refine ⟨by decide, by decide, by decide⟩

/-- C3 as amended: every file under the split directory whose relative path
components are all non-hidden (no leading dot) and whose `pathlib`
extension case-insensitively equals an allow-list entry is enumerated;
hidden files or files under hidden directories are skipped by `glob`. -/
theorem spec_c3 (fs : FS) (folderPath : FPath) (e : FSEntry) (rest : FPath)
    (he : e ∈ fs.files) (hp : e.path = folderPath ++ rest) (hne : rest ≠ [])
    (hh : ∀ comp ∈ rest, isHiddenName comp = false)
    (hext : String.mk (lowerStr (suffixOf (fileName e.path).data)) ∈ IMG_FORMATS) :
    e.path ∈ listImages fs folderPath := by
  have hglob : ∀ fmt : String,
      String.mk (lowerStr (suffixOf (fileName e.path).data)) = fmt →
      lowerStr fmt.data = fmt.data →
      globMatch folderPath fmt e.path = true := by
    intro fmt hfmt hlow
    have hdata : lowerStr (suffixOf (fileName e.path).data) = fmt.data := by
      rw [← hfmt]
    simp only [globMatch, Bool.and_eq_true]
    refine ⟨⟨⟨?_, ?_⟩, ?_⟩, ?_⟩
    · rw [hp]
      exact List.isPrefixOf_iff_prefix.mpr (List.prefix_append _ _)
    · rw [hp]
      simp only [List.length_append, decide_eq_true_eq]
      rcases rest with _ | ⟨a, t⟩
      · exact absurd rfl hne
      · simp
    · rw [hp, List.drop_left]
      rw [List.all_eq_true]
      intro comp hc
      rw [hh comp hc]
      rfl
    · rw [hlow, ← hdata]
      exact lowerStr_suffixOf_isSuffixOf (fileName e.path).data
  have hmem : e.path ∈ fs.files.map (fun e => e.path) :=
    List.mem_map.mpr ⟨e, he, rfl⟩
  unfold listImages
  rw [List.mem_flatMap]
  simp only [IMG_FORMATS, List.mem_cons, List.not_mem_nil, or_false] at hext
  rcases hext with h | h | h | h
  · exact ⟨".jpg", by decide, List.mem_filter.mpr ⟨hmem, hglob _ h (by decide)⟩⟩
  · exact ⟨".jpeg", by decide, List.mem_filter.mpr ⟨hmem, hglob _ h (by decide)⟩⟩
  · exact ⟨".png", by decide, List.mem_filter.mpr ⟨hmem, hglob _ h (by decide)⟩⟩
  · exact ⟨".bmp", by decide, List.mem_filter.mpr ⟨hmem, hglob _ h (by decide)⟩⟩

/-- Witness for C3 as amended: the upper-case `u.PNG` of `fsW` is
enumerated. -/
theorem spec_c3_witness :
    ["d:", "ds", "train", "images", "u.PNG"] ∈ listImages fsW trainW := by
  have h := spec_c3 fsW trainW
    { path := ["d:", "ds", "train", "images", "u.PNG"], verifyOk := true, readOk := true, content := "" }
    ["images", "u.PNG"] (by decide) (by decide) (by decide) (by decide) (by decide)
  exact h
theorem take4_append (a b : String) (h4 : 4 ≤ a.data.length) :
    (a ++ b).data.take 4 = a.data.take 4 := by
  rw [String.data_append]
  exact List.take_append_of_le_length h4

theorem isErrItemLine_append_false (a b : String)
    (h : a.data.take 4 ≠ "  - ".data) (h4 : 4 ≤ a.data.length) :
    isErrItemLine (a ++ b) = false := by
  unfold isErrItemLine
  rw [take4_append a b h4]
  exact beq_eq_false_iff_ne.mpr h

theorem isMoreLine_append_false (a b : String)
    (h : a.data.take 4 ≠ "  ..".data) (h4 : 4 ≤ a.data.length) :
    isMoreLine (a ++ b) = false := by
  unfold isMoreLine
  rw [take4_append a b h4]
  exact beq_eq_false_iff_ne.mpr h

theorem isErrItemLine_dash (e : String) : isErrItemLine ("  - " ++ e) = true := by
  unfold isErrItemLine
  rw [take4_append _ _ (by decide)]
  decide

theorem isMoreLine_more (x : String) : isMoreLine ("  ... and " ++ x) = true := by
  unfold isMoreLine
  rw [take4_append _ _ (by decide)]
  decide

/-- C8: the error lines a printed report emits are exactly the first 10
error strings, in order; one remainder line appears exactly when more than
10 errors exist, reporting the remaining count; an empty error list emits
no error line. -/
theorem spec_c8 (s : Stats) (nm : String) :
    (print_report (some s) nm).filter isErrItemLine
      = (s.errors.take 10).map (fun err => "  - " ++ err) ∧
    (print_report (some s) nm).countP isMoreLine
      = (if 10 < s.errors.length then 1 else 0) ∧
    (10 < s.errors.length →
      ("  ... and " ++ (toString (s.errors.length - 10) ++ " more"))
        ∈ print_report (some s) nm) := by
  have e1 : isErrItemLine sepLine = false := by decide
  have e2 : ∀ x : String, isErrItemLine ("DATASET REPORT: " ++ x) = false :=
    fun x => isErrItemLine_append_false _ _ (by decide) (by decide)
  have e3 : ∀ x : String, isErrItemLine ("Total images:         " ++ x) = false :=
    fun x => isErrItemLine_append_false _ _ (by decide) (by decide)
  have e4 : ∀ x : String, isErrItemLine ("Corrupt images:       " ++ x) = false :=
    fun x => isErrItemLine_append_false _ _ (by decide) (by decide)
  have e5 : ∀ x : String, isErrItemLine ("Empty labels:         " ++ x) = false :=
    fun x => isErrItemLine_append_false _ _ (by decide) (by decide)
  have e6 : ∀ x : String, isErrItemLine ("Missing labels:       " ++ x) = false :=
    fun x => isErrItemLine_append_false _ _ (by decide) (by decide)
  have e7 : ∀ x : String, isErrItemLine ("Total objects:        " ++ x) = false :=
    fun x => isErrItemLine_append_false _ _ (by decide) (by decide)
  have e8 : ∀ x : String, isErrItemLine ("Class distribution:   " ++ x) = false :=
    fun x => isErrItemLine_append_false _ _ (by decide) (by decide)
  have e9 : ∀ x : String, isErrItemLine ("Found " ++ x) = false :=
    fun x => isErrItemLine_append_false _ _ (by decide) (by decide)
  have e11 : ∀ x : String, isErrItemLine ("  ... and " ++ x) = false :=
    fun x => isErrItemLine_append_false _ _ (by decide) (by decide)
  have m1 : isMoreLine sepLine = false := by decide
  have m2 : ∀ x : String, isMoreLine ("DATASET REPORT: " ++ x) = false :=
    fun x => isMoreLine_append_false _ _ (by decide) (by decide)
  have m3 : ∀ x : String, isMoreLine ("Total images:         " ++ x) = false :=
    fun x => isMoreLine_append_false _ _ (by decide) (by decide)
  have m4 : ∀ x : String, isMoreLine ("Corrupt images:       " ++ x) = false :=
    fun x => isMoreLine_append_false _ _ (by decide) (by decide)
  have m5 : ∀ x : String, isMoreLine ("Empty labels:         " ++ x) = false :=
    fun x => isMoreLine_append_false _ _ (by decide) (by decide)
  have m6 : ∀ x : String, isMoreLine ("Missing labels:       " ++ x) = false :=
    fun x => isMoreLine_append_false _ _ (by decide) (by decide)
  have m7 : ∀ x : String, isMoreLine ("Total objects:        " ++ x) = false :=
    fun x => isMoreLine_append_false _ _ (by decide) (by decide)
  have m8 : ∀ x : String, isMoreLine ("Class distribution:   " ++ x) = false :=
    fun x => isMoreLine_append_false _ _ (by decide) (by decide)
  have m9 : ∀ x : String, isMoreLine ("Found " ++ x) = false :=
    fun x => isMoreLine_append_false _ _ (by decide) (by decide)
  have m10 : ∀ e : String, isMoreLine ("  - " ++ e) = false :=
    fun e => isMoreLine_append_false _ _ (by decide) (by decide)
  by_cases hemp : s.errors.isEmpty
  · rw [List.isEmpty_iff] at hemp
    refine ⟨?_, ?_, ?_⟩
    · simp [print_report, hemp, List.filter_append, List.filter,
        e1, e2, e3, e4, e5, e6, e7, e8]
    · simp [print_report, hemp, List.countP_append, List.countP_cons, List.countP_nil,
        m1, m2, m3, m4, m5, m6, m7, m8]
    · intro hlen
      rw [hemp] at hlen
      simp at hlen
  · by_cases hlen : 10 < s.errors.length
    · refine ⟨?_, ?_, ?_⟩
      · simp [print_report, hemp, hlen, List.filter_append, List.filter,
          e1, e2, e3, e4, e5, e6, e7, e8, e9, e11]
        intro a ha
        rcases List.mem_map.mp (List.mem_of_mem_take ha) with ⟨err, _, rfl⟩
        exact isErrItemLine_dash err
      · simp [print_report, hemp, hlen, List.countP_append, List.countP_cons, List.countP_nil,
          m1, m2, m3, m4, m5, m6, m7, m8, m9, isMoreLine_more]
        intro a ha
        rcases List.mem_map.mp (List.mem_of_mem_take ha) with ⟨err, _, rfl⟩
        exact m10 err
      · intro _
        simp [print_report, hemp, hlen]
    · refine ⟨?_, ?_, ?_⟩
      · simp [print_report, hemp, hlen, List.filter_append, List.filter,
          e1, e2, e3, e4, e5, e6, e7, e8, e9]
        intro a ha
        rcases List.mem_map.mp (List.mem_of_mem_take ha) with ⟨err, _, rfl⟩
        exact isErrItemLine_dash err
      · simp [print_report, hemp, hlen, List.countP_append, List.countP_cons, List.countP_nil,
          m1, m2, m3, m4, m5, m6, m7, m8, m9]
        intro a ha
        rcases List.mem_map.mp (List.mem_of_mem_take ha) with ⟨err, _, rfl⟩
        exact m10 err
      · intro h
        exact absurd h hlen

/-- Witness for C8 on a report with 12 errors: ten items plus one
remainder line reporting 2 more. -/
theorem spec_c8_witness :
    (print_report (some sE) "train").filter isErrItemLine
      = (sE.errors.take 10).map (fun err => "  - " ++ err) ∧
    (print_report (some sE) "train").countP isMoreLine = 1 ∧
    ("  ... and " ++ (toString (sE.errors.length - 10) ++ " more"))
      ∈ print_report (some sE) "train" := by
  have h := spec_c8 sE "train"
  exact ⟨h.1, by rw [h.2.1]; decide, h.2.2 (by decide)⟩
